import Mathlib

/-!
Shallow embedding of the `cita-ed25519` Signature component
(`src/lib.rs`, `src/signature.rs`).

Bytes are modelled as `Nat` values; fixed-size Rust byte arrays
(`[u8; 96]`, `H256`, `H512`) become lists carrying a length invariant
where the Rust type fixes the length.  The external cryptographic
primitive (sodiumoxide) is kept abstract, as a structure of functions
with the size guarantees its Rust types give.
-/

/-- Byte-length constants from `src/lib.rs`. -/
def ADDR_BYTES_LEN : Nat := 20

/-- Public keys are 32 bytes (`src/lib.rs`). -/
def PUBKEY_BYTES_LEN : Nat := 32

/-- Private keys are 64 bytes (`src/lib.rs`). -/
def PRIVKEY_BYTES_LEN : Nat := 64

/-- Signatures are 96 bytes (`src/lib.rs`). -/
def SIGNATURE_BYTES_LEN : Nat := 96

/-- Modelled from the spec: the error taxonomy of spec section 7.
`error.rs` is part of this repository but not under `src/`; the three
variants are the ones the spec and `signature.rs` use. -/
inductive Error where
  | InvalidPrivateKey
  | InvalidPubKey
  | InvalidSignature
deriving DecidableEq, Repr

/-- The external cryptographic primitive boundary (spec section 6):
(a) derive a public key from a private key (`None` models rejection of
invalid key material), (b) produce a 64-byte detached signature over a
message, (c) verify a detached signature against a message and a
public key.  `pubkey_to_address` is modelled from the spec (section 4.2):
address derivation lives in `keypair.rs`, which is not under `src/`, so
it is kept abstract here.  The two length fields record what the Rust
types of sodiumoxide guarantee (a `Signature` is `[u8; 64]`, a
`PublicKey` is `[u8; 32]`). -/
structure Ed where
  derive_pubkey : List Nat → Option (List Nat)
  sign_detached : List Nat → List Nat → List Nat
  verify_detached : List Nat → List Nat → List Nat → Bool
  pubkey_to_address : List Nat → List Nat
  sign_detached_len : ∀ m sk, (sign_detached m sk).length = 64
  derive_pubkey_len : ∀ sk pk, derive_pubkey sk = some pk → pk.length = 32

/-- Modelled from the spec: a KeyPair aggregates a private key and the
public key derived from it (`keypair.rs` is not under `src/`).  The
32-byte bound is the `PubKey = H256` type from `src/lib.rs`. -/
structure KeyPair where
  privkey : List Nat
  pubkey : List Nat
  pubkey_len : pubkey.length = 32

/-- Modelled from the spec: `KeyPair::from_privkey` recomputes the
public key from a caller-supplied private key and fails with
`Error::InvalidPrivateKey` if the external primitive rejects the key
material (spec section 4.1). -/
def KeyPair.from_privkey (E : Ed) (sk : List Nat) : Except Error KeyPair :=
  match h : E.derive_pubkey sk with
  | some pk => .ok ⟨sk, pk, E.derive_pubkey_len sk pk h⟩
  | none => .error Error.InvalidPrivateKey

/-- `pub struct Signature(pub [u8; 96]);` from `src/signature.rs`. -/
structure Signature where
  bytes : List Nat
  hlen : bytes.length = 96

/-- `Signature::sig`: `&self.0[0..64]`. -/
def Signature.sig (s : Signature) : List Nat := s.bytes.take 64

/-- `Signature::pk`: `&self.0[64..96]`. -/
def Signature.pk (s : Signature) : List Nat := (s.bytes.drop 64).take 32

/-- `impl PartialEq for Signature`: equality over all 96 bytes. -/
def Signature.beq (a b : Signature) : Bool := a.bytes == b.bytes

/-- `impl Default for Signature`: `Signature([0u8; 96])`. -/
def Signature.default : Signature := ⟨List.replicate 96 0, by simp⟩

/-- `impl From<&[u8]> for Signature`: asserts the slice length is 96,
then copies it.  `none` models the `assert_eq!` panic on any other
length. -/
def Signature.from_slice (slice : List Nat) : Option Signature :=
  if h : slice.length = SIGNATURE_BYTES_LEN then some ⟨slice, h⟩ else none

/-- `impl Into<&[u8]> for &Signature`: `&self.0[..]`. -/
def Signature.into_slice (s : Signature) : List Nat := s.bytes

/-- `Signature::sign` (`impl Sign`): reconstruct the key pair from the
private key (propagating `InvalidPrivateKey`), produce a detached
signature over the message, and compose `raw_signature || public_key`
into the 96-byte result. -/
def Signature.sign (E : Ed) (privkey message : List Nat) :
    Except Error Signature :=
  match KeyPair.from_privkey E privkey with
  | .error e => .error e
  | .ok kp =>
      .ok ⟨E.sign_detached message privkey ++ kp.pubkey, by
        rw [List.length_append, E.sign_detached_len message privkey,
          kp.pubkey_len]⟩

/-- `Signature::recover`: verify the signature half against the message
under the embedded key half; on success return the embedded key, on
failure `Error::InvalidSignature`. -/
def Signature.recover (E : Ed) (s : Signature) (message : List Nat) :
    Except Error (List Nat) :=
  if E.verify_detached s.sig message s.pk then .ok s.pk
  else .error Error.InvalidSignature

/-- `Signature::verify_public`: reject with `Error::InvalidPubKey` when
the embedded key differs from `pubkey`, before any use of the external
primitive; otherwise run detached verification, failing with
`Error::InvalidSignature` or returning `Ok(true)`. -/
def Signature.verify_public (E : Ed) (s : Signature)
    (pubkey message : List Nat) : Except Error Bool :=
  if s.pk ≠ pubkey then .error Error.InvalidPubKey
  else if E.verify_detached s.sig message pubkey then .ok true
  else .error Error.InvalidSignature

/-- `Signature::verify_address`: recover the public key (propagating the
error), derive its address, and compare with the claimed address. -/
def Signature.verify_address (E : Ed) (s : Signature)
    (address message : List Nat) : Except Error Bool :=
  match s.recover E message with
  | .error e => .error e
  | .ok pubkey => .ok (address == E.pubkey_to_address pubkey)

/-- Modelled from the spec: the length-prefixed binary string codec of
the external `rlp` crate (spec section 4.4: "encoded as a single
length-prefixed binary string").  `encode_value` prefixes the payload
with its length. -/
def encode_value (bytes : List Nat) : List Nat := bytes.length :: bytes

/-- Modelled from the spec: reading a length-prefixed binary string
back; `none` is a framing decode error of the external codec. -/
def decode_value (input : List Nat) : Option (List Nat) :=
  match input with
  | [] => none
  | n :: rest => if rest.length = n then some rest else none

/-- Outcome of `<Signature as Decodable>::decode`: a decoded value, a
`DecoderError`, or a panic inside the decoding closure. -/
inductive DecodeOutcome where
  | ok (s : Signature)
  | err
  | panicked

/-- `impl Decodable for Signature`: decode the length-prefixed value and
copy it into a fresh `[0u8; 96]` with `copy_from_slice`, which panics
when the payload length differs from 96 (`panicked` models that
length-mismatch panic; the closure itself performs no length check). -/
def Signature.decode (input : List Nat) : DecodeOutcome :=
  match decode_value input with
  | none => .err
  | some bytes =>
      if h : bytes.length = 96 then .ok ⟨bytes, h⟩ else .panicked

/-- `impl Encodable for Signature`: `encode_value(&self.0[0..96])`. -/
def Signature.rlp_append (s : Signature) : List Nat := encode_value s.bytes

/-- The loop of `SignatureVisitor::visit_seq`: `r` is the number of
elements still to read, `i` the current loop index, `sig` the signature
being filled in place (`signature.0[i] = val`).  Running out of input
models `next_element` returning `None`, upon which the visitor returns
`SerdeError::invalid_length(SIGNATURE_BYTES_LEN, &self)`; the error is
modelled as the pair (argument passed to `invalid_length`, loop index
at which the error was raised). -/
def visit_seq_go : Nat → Nat → Signature → List Nat →
    Except (Nat × Nat) Signature
  | 0, _, sg, _ => .ok sg
  | _ + 1, i, _, [] => .error (SIGNATURE_BYTES_LEN, i)
  | r + 1, i, sg, v :: rest =>
      visit_seq_go r (i + 1)
        ⟨sg.bytes.set i v, by rw [List.length_set]; exact sg.hlen⟩ rest

/-- `impl Deserialize for Signature`: visit a sequence, reading exactly
`SIGNATURE_BYTES_LEN` elements into a zero-initialised signature. -/
def Signature.deserialize (input : List Nat) : Except (Nat × Nat) Signature :=
  visit_seq_go SIGNATURE_BYTES_LEN 0
    ⟨List.replicate SIGNATURE_BYTES_LEN 0, by simp [SIGNATURE_BYTES_LEN]⟩ input

/-- `impl Serialize for Signature`: a sequence of the 96 bytes
`self.0[0]`, ..., `self.0[95]`, serialized as individual elements in
order. -/
def Signature.serialize (s : Signature) : List Nat := s.bytes

/-- A concrete instantiation of the external primitive, used to evaluate
the development on closed inputs: every private key derives the all-zero
public key, detached signatures are 64 zero bytes, and verification
always accepts. -/
def edTrivial : Ed where
  derive_pubkey := fun _ => some (List.replicate 32 0)
  sign_detached := fun _ _ => List.replicate 64 0
  verify_detached := fun _ _ _ => true
  pubkey_to_address := fun _ => List.replicate 20 0
  sign_detached_len := fun _ _ => by simp
  derive_pubkey_len := fun _ pk h => by
    injection h with h2
    rw [← h2]
    simp

/-- Two signatures with the same bytes are equal (the length field is a
proposition). -/
theorem Signature.ext_bytes : ∀ {a b : Signature}, a.bytes = b.bytes → a = b
  | ⟨_, _⟩, ⟨_, _⟩, rfl => rfl

/-- `KeyPair::from_privkey` succeeds with the derived public key when
the external primitive accepts the private key. -/
theorem KeyPair.from_privkey_eq_ok (E : Ed) (sk pk : List Nat)
    (hd : E.derive_pubkey sk = some pk) :
    KeyPair.from_privkey E sk = .ok ⟨sk, pk, E.derive_pubkey_len sk pk hd⟩ := by
  unfold KeyPair.from_privkey
  split
  · rename_i pk2 h
    rw [hd] at h
    injection h with h2
    subst h2
    rfl
  · rename_i h
    rw [hd] at h
    exact Option.noConfusion h

/-- When the private key is accepted, `sign` succeeds and its bytes are
the detached signature followed by the derived public key. -/
theorem Signature.sign_bytes (E : Ed) (sk pk m : List Nat)
    (hd : E.derive_pubkey sk = some pk) :
    ∃ S : Signature, Signature.sign E sk m = .ok S ∧
      S.bytes = E.sign_detached m sk ++ pk := by
  unfold Signature.sign
  rw [KeyPair.from_privkey_eq_ok E sk pk hd]
  exact ⟨_, rfl, rfl⟩

/-- The signature half of a signature whose bytes are `a ++ b` with
`a` of length 64 is exactly `a`. -/
theorem Signature.sig_of_bytes_append (S : Signature) (a b : List Nat)
    (hb : S.bytes = a ++ b) (ha : a.length = 64) : S.sig = a := by
  unfold Signature.sig
  rw [hb, List.take_append_eq_append_take, ha, Nat.sub_self, List.take_zero,
    List.append_nil, List.take_of_length_le (by omega)]

/-- The embedded-key half of a signature whose bytes are `a ++ b` with
`a` of length 64 is exactly `b`. -/
theorem Signature.pk_of_bytes_append (S : Signature) (a b : List Nat)
    (hb : S.bytes = a ++ b) (ha : a.length = 64) : S.pk = b := by
  have h96 := S.hlen
  rw [hb, List.length_append, ha] at h96
  unfold Signature.pk
  rw [hb, List.drop_append_eq_append_drop, List.drop_eq_nil_of_le (by omega),
    List.nil_append, ha, Nat.sub_self, List.drop_zero,
    List.take_of_length_le (by omega)]

/-- Taking one element past a freshly written index splits off the
written value. -/
theorem take_succ_set (L : List Nat) (i b : Nat) (hi : i < L.length) :
    (L.set i b).take (i + 1) = L.take i ++ [b] := by
  rw [List.set_eq_take_cons_drop b hi, List.take_append_eq_append_take]
  have h1 : (L.take i).length = i := by rw [List.length_take]; omega
  rw [List.take_of_length_le (by omega), h1]
  have h2 : i + 1 - i = 1 := by omega
  rw [h2]
  simp

/-- The visitor loop, run on exactly the number of elements it still
expects, succeeds and overwrites the window starting at the loop index
with the input elements. -/
theorem visit_seq_go_exact (v : List Nat) : ∀ (i : Nat) (sg : Signature),
    i + v.length ≤ 96 →
    ∃ t : Signature, visit_seq_go v.length i sg v = .ok t ∧
      t.bytes = sg.bytes.take i ++ v ++ sg.bytes.drop (i + v.length) := by
  induction v with
  | nil =>
      intro i sg _
      refine ⟨sg, rfl, ?_⟩
      simp
  | cons b rest ih =>
      intro i sg hle
      rw [List.length_cons] at hle
      have hi : i < sg.bytes.length := by rw [sg.hlen]; omega
      simp only [List.length_cons, visit_seq_go]
      obtain ⟨t, ht, hbytes⟩ :=
        ih (i + 1) ⟨sg.bytes.set i b, by rw [List.length_set]; exact sg.hlen⟩
          (by omega)
      refine ⟨t, ht, ?_⟩
      rw [hbytes]
      show (sg.bytes.set i b).take (i + 1) ++ rest ++
          (sg.bytes.set i b).drop (i + 1 + rest.length) =
        sg.bytes.take i ++ (b :: rest) ++ sg.bytes.drop (i + (rest.length + 1))
      rw [take_succ_set sg.bytes i b hi,
        List.drop_set_of_lt b sg.bytes
          (show i < i + 1 + rest.length by omega)]
      have h3 : i + 1 + rest.length = i + (rest.length + 1) := by omega
      rw [h3]
      simp

/-- The visitor loop, run on fewer elements than it still expects,
fails with `invalid_length` at loop index (start index + number of
available elements). -/
theorem visit_seq_go_short (v : List Nat) : ∀ (r i : Nat) (sg : Signature),
    v.length < r →
    visit_seq_go r i sg v = .error (SIGNATURE_BYTES_LEN, i + v.length) := by
  induction v with
  | nil =>
      intro r i sg h
      match r, h with
      | r + 1, _ => simp [visit_seq_go]
  | cons b rest ih =>
      intro r i sg h
      rw [List.length_cons] at h
      match r, h with
      | r + 1, h =>
          simp only [visit_seq_go]
          rw [ih r (i + 1) _ (by omega)]
          have h3 : i + 1 + rest.length = i + (rest.length + 1) := by omega
          rw [List.length_cons, h3]

/-- C1: for every signature, public key and message, `verify_public`
returns `Err(InvalidPubKey)` when the embedded key half differs from
`pubkey`, and it does so uniformly in the external primitive `E` (the
result does not depend on `verify_detached`, capturing that the
rejection happens before the primitive is invoked); otherwise it
returns `Err(InvalidSignature)` exactly when detached verification
fails and `Ok(true)` when it succeeds; it never returns `Ok(false)`. -/
theorem Signature.verify_public_contract :
    (∀ (E : Ed) (S : Signature) (pubkey message : List Nat),
      S.pk ≠ pubkey →
        S.verify_public E pubkey message = .error Error.InvalidPubKey) ∧
    (∀ (E : Ed) (S : Signature) (pubkey message : List Nat),
      S.pk = pubkey → E.verify_detached S.sig message pubkey = false →
        S.verify_public E pubkey message = .error Error.InvalidSignature) ∧
    (∀ (E : Ed) (S : Signature) (pubkey message : List Nat),
      S.pk = pubkey → E.verify_detached S.sig message pubkey = true →
        S.verify_public E pubkey message = .ok true) ∧
    (∀ (E : Ed) (S : Signature) (pubkey message : List Nat),
      S.verify_public E pubkey message ≠ .ok false) := by
  refine ⟨?_, ?_, ?_, ?_⟩ <;> intro E S pubkey message
  · intro h
    simp [Signature.verify_public, h]
  · intro h hv
    simp [Signature.verify_public, h, hv]
  · intro h hv
    simp [Signature.verify_public, h, hv]
  · intro hcon
    unfold Signature.verify_public at hcon
    split at hcon
    · exact Except.noConfusion hcon
    · split at hcon
      · simp at hcon
      · exact Except.noConfusion hcon

/-- C1 witness: the embedded key of the all-zero signature differs from
the all-one public key, so `verify_public` rejects with
`InvalidPubKey`. -/
theorem Signature.verify_public_contract_witness :
    Signature.default.verify_public edTrivial (List.replicate 32 1)
      (List.replicate 32 0) = .error Error.InvalidPubKey :=
  Signature.verify_public_contract.1 edTrivial Signature.default
    (List.replicate 32 1) (List.replicate 32 0) (by decide)

/-- C2: for every key pair whose public key is the one the primitive
derives from its private key, and every 32-byte message, recovering
from a fresh signature returns exactly that public key — assuming the
external primitive's detached verification accepts a detached
signature it itself produced under the matching key. -/
theorem Signature.sign_then_recover (E : Ed) (sk pk m : List Nat)
    (hd : E.derive_pubkey sk = some pk) (hm : m.length = 32)
    (hv : ∀ (msg key pub : List Nat), E.derive_pubkey key = some pub →
      E.verify_detached (E.sign_detached msg key) msg pub = true) :
    (Signature.sign E sk m).bind (fun s => s.recover E m) = .ok pk := by
  obtain ⟨S, hS, hb⟩ := Signature.sign_bytes E sk pk m hd
  rw [hS]
  show S.recover E m = .ok pk
  have ha : (E.sign_detached m sk).length = 64 := E.sign_detached_len m sk
  have hsig := Signature.sig_of_bytes_append S _ _ hb ha
  have hpk := Signature.pk_of_bytes_append S _ _ hb ha
  unfold Signature.recover
  rw [hsig, hpk, hv m sk pk hd]
  simp

/-- C2 witness: sign-then-recover evaluated at a concrete primitive,
the all-zero private key and the all-zero message. -/
theorem Signature.sign_then_recover_witness :
    (Signature.sign edTrivial (List.replicate 64 0)
        (List.replicate 32 0)).bind
      (fun s => s.recover edTrivial (List.replicate 32 0)) =
      .ok (List.replicate 32 0) :=
  Signature.sign_then_recover edTrivial (List.replicate 64 0)
    (List.replicate 32 0) (List.replicate 32 0) rfl (by simp)
    (fun _ _ _ _ => rfl)

/-- C3: `recover` asks the primitive to verify bytes [0..64) against
the message under bytes [64..96) as claimed signer, fails with
`InvalidSignature` exactly when that verification fails, and on
success returns exactly the embedded key half. -/
theorem Signature.recover_contract (E : Ed) (S : Signature)
    (message : List Nat) :
    (S.recover E message = .error Error.InvalidSignature ↔
      E.verify_detached (S.bytes.take 64) message
        ((S.bytes.drop 64).take 32) = false) ∧
    (E.verify_detached (S.bytes.take 64) message
        ((S.bytes.drop 64).take 32) = true →
      S.recover E message = .ok ((S.bytes.drop 64).take 32)) ∧
    (∀ pk, S.recover E message = .ok pk →
      pk = (S.bytes.drop 64).take 32) := by
  cases hcond : E.verify_detached (S.bytes.take 64) message
      ((S.bytes.drop 64).take 32) with
  | false =>
      refine ⟨?_, ?_, ?_⟩
      · simp [Signature.recover, Signature.sig, Signature.pk, hcond]
      · intro h
        exact Bool.noConfusion h
      · intro pk h
        simp [Signature.recover, Signature.sig, Signature.pk, hcond] at h
  | true =>
      refine ⟨?_, ?_, ?_⟩
      · simp [Signature.recover, Signature.sig, Signature.pk, hcond]
      · intro _
        simp [Signature.recover, Signature.sig, Signature.pk, hcond]
      · intro pk h
        simp [Signature.recover, Signature.sig, Signature.pk, hcond] at h
        exact h.symm

/-- C3 witness: under the always-accepting primitive, `recover` on the
all-zero signature returns its embedded key half. -/
theorem Signature.recover_contract_witness :
    Signature.default.recover edTrivial (List.replicate 32 0) =
      .ok ((Signature.default.bytes.drop 64).take 32) :=
  (Signature.recover_contract edTrivial Signature.default
    (List.replicate 32 0)).2.1 rfl

/-- C4: `verify_address` propagates the error of `recover`, and after a
successful recovery returns `Ok(true)` exactly when the address derived
from the recovered key equals `address`, and `Ok(false)` otherwise. -/
theorem Signature.verify_address_contract (E : Ed) (S : Signature)
    (address message : List Nat) :
    (∀ e, S.recover E message = .error e →
      S.verify_address E address message = .error e) ∧
    (∀ pk, S.recover E message = .ok pk →
      (S.verify_address E address message = .ok true ↔
        address = E.pubkey_to_address pk) ∧
      (address ≠ E.pubkey_to_address pk →
        S.verify_address E address message = .ok false)) := by
  constructor
  · intro e he
    simp [Signature.verify_address, he]
  · intro pk hpk
    constructor
    · simp [Signature.verify_address, hpk]
    · intro hne
      simp [Signature.verify_address, hpk, hne]

/-- C4 witness: under the always-accepting primitive, recovery succeeds
on the all-zero signature and the derived all-zero address matches. -/
theorem Signature.verify_address_contract_witness :
    Signature.default.verify_address edTrivial (List.replicate 20 0)
      (List.replicate 32 0) = .ok true := by
  have h := ((Signature.verify_address_contract edTrivial Signature.default
    (List.replicate 20 0) (List.replicate 32 0)).2
    (List.replicate 32 0) rfl).1
  exact h.mpr rfl

/-- C5: decoding a length-prefixed value whose payload length differs
from 96 does not produce a decode error: the closure passed to
`decode_value` copies the payload with `copy_from_slice`, whose length
assertion panics.  Evaluated at payload lengths 0, 95 and 97. -/
theorem Signature.decode_wrong_length_panics :
    Signature.decode (encode_value []) = .panicked ∧
    Signature.decode (encode_value (List.replicate 95 0)) = .panicked ∧
    Signature.decode (encode_value (List.replicate 97 0)) = .panicked :=
  ⟨rfl, rfl, rfl⟩

/-- C6: decoding the length-prefixed encoding of a signature yields a
byte-identical signature. -/
theorem Signature.rlp_roundtrip (S : Signature) :
    Signature.decode (Signature.rlp_append S) = .ok S := by
  obtain ⟨b, hb⟩ := S
  simp [Signature.rlp_append, Signature.decode, decode_value, encode_value, hb]

/-- C7: deserializing the element-sequence encoding of a signature
yields it back, and an input sequence with fewer than 96 elements fails
with `invalid_length(96)` raised at loop index equal to the number of
available elements — the position of the first missing element. -/
theorem Signature.serde_contract :
    (∀ S : Signature,
      Signature.deserialize (Signature.serialize S) = .ok S) ∧
    (∀ input : List Nat, input.length < SIGNATURE_BYTES_LEN →
      Signature.deserialize input =
        .error (SIGNATURE_BYTES_LEN, input.length)) := by
  constructor
  · intro S
    obtain ⟨t, ht, hbytes⟩ :=
      visit_seq_go_exact S.bytes 0
        ⟨List.replicate SIGNATURE_BYTES_LEN 0, by simp [SIGNATURE_BYTES_LEN]⟩
        (by rw [S.hlen])
    rw [S.hlen] at ht hbytes
    have hts : t = S :=
      Signature.ext_bytes (by simpa [SIGNATURE_BYTES_LEN] using hbytes)
    rw [hts] at ht
    exact ht
  · intro input hlt
    simpa using visit_seq_go_short input SIGNATURE_BYTES_LEN 0
      ⟨List.replicate SIGNATURE_BYTES_LEN 0, by simp [SIGNATURE_BYTES_LEN]⟩ hlt

/-- C7 witness: the empty sequence fails with `invalid_length(96)`
raised at loop index 0. -/
theorem Signature.serde_contract_witness :
    Signature.deserialize [] = .error (SIGNATURE_BYTES_LEN, 0) :=
  Signature.serde_contract.2 [] (by decide)

/-- C8: on an accepted private key, `sign` produces exactly
`raw_signature || public_key` (64-byte detached signature, then the
derived 32-byte key), and on every signature `sig()` is bytes [0..64)
and `pk()` is bytes [64..96): length 64 and 32, concatenating back to
the full 96 bytes. -/
theorem Signature.sign_composition :
    (∀ (E : Ed) (sk pk m : List Nat), E.derive_pubkey sk = some pk →
      ∃ S : Signature, Signature.sign E sk m = .ok S ∧
        S.bytes = E.sign_detached m sk ++ pk ∧
        S.sig = E.sign_detached m sk ∧ S.pk = pk) ∧
    (∀ S : Signature, S.sig = S.bytes.take 64 ∧
      S.pk = (S.bytes.drop 64).take 32 ∧
      S.sig.length = 64 ∧ S.pk.length = 32 ∧ S.sig ++ S.pk = S.bytes) := by
  constructor
  · intro E sk pk m hd
    obtain ⟨S, hS, hb⟩ := Signature.sign_bytes E sk pk m hd
    have ha : (E.sign_detached m sk).length = 64 := E.sign_detached_len m sk
    exact ⟨S, hS, hb, Signature.sig_of_bytes_append S _ _ hb ha,
      Signature.pk_of_bytes_append S _ _ hb ha⟩
  · intro S
    have h96 := S.hlen
    refine ⟨rfl, rfl, ?_, ?_, ?_⟩
    · unfold Signature.sig
      rw [List.length_take]
      omega
    · unfold Signature.pk
      rw [List.length_take, List.length_drop]
      omega
    · unfold Signature.sig Signature.pk
      have hd32 : (S.bytes.drop 64).length ≤ 32 := by
        rw [List.length_drop]
        omega
      rw [List.take_of_length_le hd32]
      exact List.take_append_drop 64 S.bytes

/-- C8 witness: signing the all-zero message with the all-zero private
key under the concrete primitive. -/
theorem Signature.sign_composition_witness :
    ∃ S : Signature,
      Signature.sign edTrivial (List.replicate 64 0)
          (List.replicate 32 0) = .ok S ∧
      S.bytes = edTrivial.sign_detached (List.replicate 32 0)
          (List.replicate 64 0) ++ List.replicate 32 0 ∧
      S.sig = edTrivial.sign_detached (List.replicate 32 0)
          (List.replicate 64 0) ∧
      S.pk = List.replicate 32 0 :=
  Signature.sign_composition.1 edTrivial (List.replicate 64 0)
    (List.replicate 32 0) (List.replicate 32 0) rfl

/-- C9: converting a signature to a byte slice and back reconstructs an
equal signature, and conversion from a slice of any length other than
96 fails (the length assertion panics, modelled by `none`), so no
signature is ever constructed from such a slice. -/
theorem Signature.slice_roundtrip :
    (∀ S : Signature,
      Signature.from_slice (Signature.into_slice S) = some S) ∧
    (∀ slice : List Nat, slice.length ≠ 96 →
      Signature.from_slice slice = none) := by
  constructor
  · intro S
    unfold Signature.from_slice Signature.into_slice
    have hc : S.bytes.length = SIGNATURE_BYTES_LEN := S.hlen
    rw [dif_pos hc]
  · intro slice h
    unfold Signature.from_slice
    exact dif_neg h

/-- C9 witness: a one-byte slice is rejected. -/
theorem Signature.slice_roundtrip_witness :
    Signature.from_slice [0] = none :=
  Signature.slice_roundtrip.2 [0] (by decide)

/-- C10: the default signature is the all-zero 96-byte signature: its
signature half is 64 zero bytes, its embedded-key half 32 zero bytes,
and any signature built from 96 zero bytes is equal to it (both under
the 96-byte `PartialEq` and propositionally). -/
theorem Signature.default_zero :
    Signature.default.sig = List.replicate 64 0 ∧
    Signature.default.pk = List.replicate 32 0 ∧
    Signature.default.bytes = List.replicate 96 0 ∧
    Signature.from_slice (List.replicate 96 0) = some Signature.default ∧
    ∀ S : Signature, S.bytes = List.replicate 96 0 →
      Signature.beq S Signature.default = true ∧ S = Signature.default := by
  refine ⟨by decide, by decide, rfl, ?_, ?_⟩
  · unfold Signature.from_slice
    rw [dif_pos (by simp [SIGNATURE_BYTES_LEN])]
    exact congrArg some (Signature.ext_bytes rfl)
  · intro S h
    exact ⟨by simp [Signature.beq, Signature.default, h],
      Signature.ext_bytes h⟩

/-- C10 witness: a signature literally built from 96 zero bytes equals
the default signature. -/
theorem Signature.default_zero_witness :
    Signature.mk (List.replicate 96 0) (by simp) = Signature.default :=
  (Signature.default_zero.2.2.2.2
    (Signature.mk (List.replicate 96 0) (by simp)) rfl).2
